import Mathlib

set_option maxRecDepth 10000

/-!
Shallow embedding of `src/v2/auth.rs` (dkregistry-rs): the `WWW-Authenticate`
challenge parser, the bearer token-endpoint URL builder `auth_ep`, the token
masking step, and the `authenticate` / `is_auth` orchestration.

Strings are modelled as Lean `String` / `List Char`.  The external HTTP
transport and the `url` crate are modelled as oracles in an `Env` record.
Rust `usize` underflow and `String::replace_range` panics are modelled by
`Option` (`none` = panic).
-/

/-! ## Character classes of the header regex

The parser in `from_www_authentication_header` uses the regex
`\s*((?P<method>[A-Z][a-z]+)\s*)?(\s*(?P<key>[a-z]+)\s*=\s*"(?P<value>[^"]+)"\s*)`.
`\s` (Unicode `White_Space`), `[A-Z]`, `[a-z]`, `[^"]` are modelled below.
-/

def isWs (c : Char) : Bool :=
  decide (c.toNat ∈ [9, 10, 11, 12, 13, 32, 0x85, 0xA0, 0x1680,
    0x2000, 0x2001, 0x2002, 0x2003, 0x2004, 0x2005, 0x2006, 0x2007,
    0x2008, 0x2009, 0x200A, 0x2028, 0x2029, 0x202F, 0x205F, 0x3000])

def isLowerAz (c : Char) : Bool := 97 ≤ c.toNat && c.toNat ≤ 122

def isUpperAz (c : Char) : Bool := 65 ≤ c.toNat && c.toNat ≤ 90

def notQuote (c : Char) : Bool := c != '"'

/-- One capture of the header regex: the optional `method` group and the
mandatory `key`/`value` groups. -/
structure Capture where
  method : Option (List Char)
  key : List Char
  value : List Char
deriving Repr, DecidableEq

/-- `some rest` when the input starts with the literal character `c`. -/
def expectChar (c : Char) (cs : List Char) : Option (List Char) :=
  match cs with
  | d :: rest => if d = c then some rest else none
  | [] => none

/-- Matches `\s*=\s*"[^"]+"\s*` (the part of a key-value pair after the key),
returning the value and the remaining input after the match. -/
def matchAfterKey (cs : List Char) : Option (List Char × List Char) :=
  match expectChar '=' (cs.dropWhile isWs) with
  | none => none
  | some r1 =>
    match expectChar '"' (r1.dropWhile isWs) with
    | none => none
    | some r2 =>
      if r2.takeWhile notQuote = [] then none
      else
        match r2.dropWhile notQuote with
        | [] => none
        | _ :: r3 => some (r2.takeWhile notQuote, r3.dropWhile isWs)

/-- Matches `[a-z]+\s*=\s*"[^"]+"\s*` at the head of the input. -/
def matchKv (cs : List Char) : Option (List Char × List Char × List Char) :=
  if cs.takeWhile isLowerAz = [] then none
  else
    match matchAfterKey (cs.dropWhile isLowerAz) with
    | some (v, r) => some (cs.takeWhile isLowerAz, v, r)
    | none => none

/-- Attempts the whole regex at the current position, with the regex crate's
leftmost-first preferences: the optional `([A-Z][a-z]+)\s*` method group is
tried greedily first; when the key cannot start after the method's maximal
lowercase run, the greedy `[a-z]+` of the method backtracks by one character,
which then becomes the key. -/
def matchAt (cs : List Char) : Option (Capture × List Char) :=
  match cs.dropWhile isWs with
  | [] => none
  | c :: rest =>
    if isUpperAz c then
      if rest.takeWhile isLowerAz = [] then none
      else
        match matchKv ((rest.dropWhile isLowerAz).dropWhile isWs) with
        | some (k, v, r) =>
          some ({ method := some (c :: rest.takeWhile isLowerAz), key := k, value := v }, r)
        | none =>
          if 2 ≤ (rest.takeWhile isLowerAz).length then
            match matchAfterKey (rest.dropWhile isLowerAz) with
            | some (v, r) =>
              some ({ method := some (c :: (rest.takeWhile isLowerAz).dropLast),
                      key := [(rest.takeWhile isLowerAz).getLastD 'a'], value := v }, r)
            | none => none
          else none
    else
      match matchKv (c :: rest) with
      | some (k, v, r) => some ({ method := none, key := k, value := v }, r)
      | none => none

/-- `captures_iter`: successive non-overlapping leftmost matches.  The fuel is
an upper bound on the number of scanning steps; `scanList` supplies enough. -/
def scanAux : Nat → List Char → List Capture
  | 0, _ => []
  | _ + 1, [] => []
  | fuel + 1, c :: cs =>
    match matchAt (c :: cs) with
    | some (cap, rest) => cap :: scanAux fuel rest
    | none => scanAux fuel cs

def scanList (cs : List Char) : List Capture := scanAux cs.length cs

/-! ## The serde stage

The Rust code rebuilds a JSON document `{ "<method>": { "<k>": "<v>", ... } }`
from the captures and runs it through `serde_json`/`serde_ignored` into the
derived `Deserialize` of `WwwAuthenticateHeaderContent`.  Keys are `[a-z]+`
and values are quote-free, so the JSON document is well-formed and the stage
reduces to: JSON string unescaping of each value, externally-tagged variant
selection on the method, and the derived struct field loop (duplicate known
field is an error, missing `realm` is an error, unknown keys are ignored but
their values still parsed). -/

inductive ParseErr where
  | regexNoMatch
  | methodNotFound
  | unknownVariant (method : List Char)
  | duplicateField (field : String)
  | missingField (field : String)
  | invalidJsonString
deriving Repr, DecidableEq

def hexVal (c : Char) : Option Nat :=
  if 48 ≤ c.toNat ∧ c.toNat ≤ 57 then some (c.toNat - 48)
  else if 97 ≤ c.toNat ∧ c.toNat ≤ 102 then some (c.toNat - 87)
  else if 65 ≤ c.toNat ∧ c.toNat ≤ 70 then some (c.toNat - 55)
  else none

/-- The eight single-character escapes of a JSON string. -/
def jsonSimpleEscape (e : Char) : Option Char :=
  if e = '"' then some '"'
  else if e = '\\' then some '\\'
  else if e = '/' then some '/'
  else if e = 'b' then some '\x08'
  else if e = 'f' then some '\x0c'
  else if e = 'n' then some '\n'
  else if e = 'r' then some '\r'
  else if e = 't' then some '\t'
  else none

/-- After `\uXXXX` decoding to a leading surrogate `n`, expects `\uYYYY` with a
trailing surrogate and combines the pair. -/
def decodeLowSurrogate (n : Nat) : List Char → Option (Char × List Char)
  | e2 :: u2 :: g1 :: g2 :: g3 :: g4 :: t3 =>
    if e2 = '\\' ∧ u2 = 'u' then
      match hexVal g1, hexVal g2, hexVal g3, hexVal g4 with
      | some a2, some b2, some c2, some d2 =>
        if 0xDC00 ≤ ((a2 * 16 + b2) * 16 + c2) * 16 + d2 ∧
            ((a2 * 16 + b2) * 16 + c2) * 16 + d2 ≤ 0xDFFF then
          some (Char.ofNat (0x10000 + (n - 0xD800) * 0x400
            + ((((a2 * 16 + b2) * 16 + c2) * 16 + d2) - 0xDC00)), t3)
        else none
      | _, _, _, _ => none
    else none
  | _ => none

/-- Decodes `uXXXX` (after `\u`): plain code point, or a surrogate pair. -/
def decodeU : List Char → Option (Char × List Char)
  | h1 :: h2 :: h3 :: h4 :: t2 =>
    match hexVal h1, hexVal h2, hexVal h3, hexVal h4 with
    | some a, some b, some c1, some d =>
      if 0xD800 ≤ ((a * 16 + b) * 16 + c1) * 16 + d ∧
          ((a * 16 + b) * 16 + c1) * 16 + d ≤ 0xDBFF then
        decodeLowSurrogate (((a * 16 + b) * 16 + c1) * 16 + d) t2
      else if 0xDC00 ≤ ((a * 16 + b) * 16 + c1) * 16 + d ∧
          ((a * 16 + b) * 16 + c1) * 16 + d ≤ 0xDFFF then none
      else some (Char.ofNat (((a * 16 + b) * 16 + c1) * 16 + d), t2)
    | _, _, _, _ => none
  | _ => none

/-- Decodes one escape sequence after a backslash: the escaped character and
the remaining input. -/
def decodeEscape : List Char → Option (Char × List Char)
  | [] => none
  | e :: t =>
    if e = 'u' then decodeU t
    else (jsonSimpleEscape e).map (fun ch => (ch, t))

/-- `serde_json` string-content semantics, driven by fuel (any fuel of at
least the input length computes the result): backslash escapes (including
`\uXXXX` and surrogate pairs), unescaped control characters are an error. -/
def jsonUnescapeAux : Nat → List Char → Option (List Char)
  | _, [] => some []
  | 0, _ :: _ => none
  | f + 1, c :: r =>
    if c = '\\' then
      match decodeEscape r with
      | none => none
      | some (ch, rest) => (jsonUnescapeAux f rest).map (fun l => ch :: l)
    else if c.toNat < 32 then none
    else (jsonUnescapeAux f r).map (fun l => c :: l)

def jsonUnescape (l : List Char) : Option (List Char) := jsonUnescapeAux l.length l

structure WwwAuthenticateHeaderContentBearer where
  realm : String
  service : Option String
  scope : Option String
deriving Repr, DecidableEq

structure WwwAuthenticateHeaderContentBasic where
  realm : String
deriving Repr, DecidableEq

inductive WwwAuthenticateHeaderContent where
  | Bearer (b : WwwAuthenticateHeaderContentBearer)
  | Basic (b : WwwAuthenticateHeaderContentBasic)
deriving Repr, DecidableEq

/-- The derived `Deserialize` field loop of `WwwAuthenticateHeaderContentBearer`
(wrapped in `serde_ignored`): fields are filled in encounter order, a second
occurrence of a known field is a `duplicate field` error, unknown keys are
ignored (their value is still parsed as a JSON string), and a missing `realm`
at the end is a `missing field` error. -/
def deserBearerFields :
    List (List Char × List Char) → Option (List Char) → Option (List Char) →
    Option (List Char) → Except ParseErr WwwAuthenticateHeaderContentBearer
  | [], r, s, sc =>
    match r with
    | none => .error (.missingField "realm")
    | some rv => .ok ⟨String.mk rv, s.map String.mk, sc.map String.mk⟩
  | (k, v) :: rest, r, s, sc =>
    if k = "realm".toList then
      match r with
      | some _ => .error (.duplicateField "realm")
      | none =>
        match jsonUnescape v with
        | none => .error .invalidJsonString
        | some v2 => deserBearerFields rest (some v2) s sc
    else if k = "service".toList then
      match s with
      | some _ => .error (.duplicateField "service")
      | none =>
        match jsonUnescape v with
        | none => .error .invalidJsonString
        | some v2 => deserBearerFields rest r (some v2) sc
    else if k = "scope".toList then
      match sc with
      | some _ => .error (.duplicateField "scope")
      | none =>
        match jsonUnescape v with
        | none => .error .invalidJsonString
        | some v2 => deserBearerFields rest r s (some v2)
    else
      match jsonUnescape v with
      | none => .error .invalidJsonString
      | some _ => deserBearerFields rest r s sc

/-- The derived `Deserialize` field loop of `WwwAuthenticateHeaderContentBasic`. -/
def deserBasicFields :
    List (List Char × List Char) → Option (List Char) →
    Except ParseErr WwwAuthenticateHeaderContentBasic
  | [], r =>
    match r with
    | none => .error (.missingField "realm")
    | some rv => .ok ⟨String.mk rv⟩
  | (k, v) :: rest, r =>
    if k = "realm".toList then
      match r with
      | some _ => .error (.duplicateField "realm")
      | none =>
        match jsonUnescape v with
        | none => .error .invalidJsonString
        | some v2 => deserBasicFields rest (some v2)
    else
      match jsonUnescape v with
      | none => .error .invalidJsonString
      | some _ => deserBasicFields rest r

/-- Externally-tagged enum deserialization on the method name. -/
def deserContent (method : List Char) (pairs : List (List Char × List Char)) :
    Except ParseErr WwwAuthenticateHeaderContent :=
  if method = "Bearer".toList then
    (deserBearerFields pairs none none none).map .Bearer
  else if method = "Basic".toList then
    (deserBasicFields pairs none).map .Basic
  else .error (.unknownVariant method)

instance {ε α : Type} [DecidableEq ε] [DecidableEq α] : DecidableEq (Except ε α) := fun x y =>
  match x, y with
  | .ok a, .ok b =>
    if h : a = b then isTrue (by rw [h]) else isFalse (fun he => h (Except.ok.inj he))
  | .error a, .error b =>
    if h : a = b then isTrue (by rw [h]) else isFalse (fun he => h (Except.error.inj he))
  | .ok _, .error _ => isFalse (fun he => Except.noConfusion he)
  | .error _, .ok _ => isFalse (fun he => Except.noConfusion he)

/-- `WwwAuthenticateHeaderContent::from_www_authentication_header`: regex scan
of the header, method taken from the first capture, key-value pairs from all
captures, then the serde stage.  (The `String::from_utf8` validation of the
raw header bytes happens upstream of this model; the input here is already a
valid string.) -/
def from_www_authentication_header (header : String) :
    Except ParseErr WwwAuthenticateHeaderContent :=
  let caps := scanList header.toList
  match caps with
  | [] => .error .regexNoMatch
  | c0 :: _ =>
    match c0.method with
    | none => .error .methodNotFound
    | some m => deserContent m (caps.map fun c => (c.key, c.value))

/-! ## `WwwAuthenticateHeaderContentBearer::auth_ep`

The token-endpoint URL builder.  The fold over `scopes.iter().enumerate()` is
modelled by `scopeAcc` with an explicit index. -/

def scopeAcc : String → Nat → List String → String
  | acc, _, [] => acc
  | acc, i, s :: rest => scopeAcc (acc ++ (if 1 < i then "&" else "") ++ "scope=" ++ s) (i + 1) rest

def auth_ep (b : WwwAuthenticateHeaderContentBearer) (scopes : List String) : String :=
  let service := match b.service with
    | some sv => "?service=" ++ sv
    | none => ""
  let init : String := if scopes.isEmpty then "" else if service = "" then "?" else "&"
  b.realm ++ service ++ scopeAcc init 0 scopes

/-- The scope suffix as the spec's composition rule words it: nothing for no
scopes; the first scope (as `scope=<scope>`) prefixed with `?` when no service
segment was emitted and with `&` otherwise; the second appended with no
separator at all; every scope from the third onward appended as
`&scope=<scope>`. -/
def specScopeTail : List String → String
  | [] => ""
  | s :: rest => "&scope=" ++ s ++ specScopeTail rest

def auth_ep_spec (b : WwwAuthenticateHeaderContentBearer) (scopes : List String) : String :=
  let service := match b.service with
    | some sv => "?service=" ++ sv
    | none => ""
  let lead : String := match b.service with
    | some _ => "&"
    | none => "?"
  let scopePart := match scopes with
    | [] => ""
    | [s0] => lead ++ "scope=" ++ s0
    | s0 :: s1 :: rest => lead ++ "scope=" ++ s0 ++ "scope=" ++ s1 ++ specScopeTail rest
  b.realm ++ service ++ scopePart

/-! ## Token masking (`Client::authenticate`, lines 247-253)

`chars_count` is the character count, but `replace_range` takes *byte*
indices; `maskToken` is byte-faithful: `none` models a panic (the `usize`
underflow of `chars_count - 1` on an empty token, or `replace_range` hitting
an out-of-bounds index / non-boundary byte index). -/

def utf8Len (c : Char) : Nat :=
  if c.toNat < 0x80 then 1
  else if c.toNat < 0x800 then 2
  else if c.toNat < 0x10000 then 3
  else 4

/-- The characters making up the first `n` bytes; `none` when `n` is not a
character boundary or exceeds the byte length. -/
def takeBytes : List Char → Nat → Option (List Char)
  | _, 0 => some []
  | [], _ + 1 => none
  | c :: rest, n + 1 =>
    if utf8Len c ≤ n + 1 then (takeBytes rest (n + 1 - utf8Len c)).map (fun l => c :: l)
    else none

/-- The characters after the first `n` bytes; `none` when `n` is not a
character boundary or exceeds the byte length. -/
def dropBytes : List Char → Nat → Option (List Char)
  | t, 0 => some t
  | [], _ + 1 => none
  | c :: rest, n + 1 =>
    if utf8Len c ≤ n + 1 then dropBytes rest (n + 1 - utf8Len c)
    else none

def maskToken (t : List Char) : Option (List Char) :=
  if t.length = 0 then none
  else
    let charsCount := t.length
    let maskStart := min 1 (charsCount - 1)
    let maskEnd := max (charsCount - 1) 1
    match takeBytes t maskStart, dropBytes t maskEnd with
    | some pre, some post =>
      if maskStart ≤ maskEnd then some (pre ++ List.replicate (maskEnd - maskStart) '*' ++ post)
      else none
    | _, _ => none

/-! ## Credential representation and client state -/

structure BearerAuth where
  token : String
  expires_in : Option Nat
  issued_at : Option String
  refresh_token : Option String
deriving Repr, DecidableEq

structure BasicAuth where
  user : String
  password : Option String
deriving Repr, DecidableEq

inductive Auth where
  | Bearer (b : BearerAuth)
  | Basic (b : BasicAuth)
deriving Repr, DecidableEq

structure Client where
  base_url : String
  credentials : Option (String × String)
  auth : Option Auth
deriving DecidableEq

/-! ## External collaborators

The HTTP transport and the `url` crate are oracles fixed per `authenticate`
call: the outcome of each of the (at most) three requests and of URL parsing. -/

structure ProbeResponse where
  status : Nat
  www_authenticate : Option String
deriving Repr, DecidableEq

structure TokenResponse where
  status : Nat
  body : Option BearerAuth
deriving Repr, DecidableEq

structure Env where
  urlParse : String → Bool
  probe : Option ProbeResponse
  tokenResp : Option TokenResponse
  verifyStatus : Option Nat

inductive AuthErr where
  | noCredentials
  | urlParseError (url : String)
  | transportError
  | missingHeader
  | headerParseError (e : ParseErr)
  | wrongTokenStatus (status : Nat)
  | bodyJsonError
  | tokenUnauthenticated
  | tokenEmpty
  | loginFailed
  | wrongProbeStatus (status : Nat)
deriving Repr, DecidableEq

/-- `Client::is_auth`: parse `<base_url>/v2/`, issue the probe, then
`200 -> Ok(true)`, `401 -> Ok(false)`, anything else is an error. -/
def is_auth (c : Client) (env : Env) : Except AuthErr Bool :=
  if env.urlParse (c.base_url ++ "/v2/") = false then
    .error (.urlParseError (c.base_url ++ "/v2/"))
  else
    match env.verifyStatus with
    | none => .error .transportError
    | some status =>
      if status = 200 then .ok true
      else if status = 401 then .ok false
      else .error (.wrongProbeStatus status)

/-- The tail of `authenticate` (lines 261-268): `if !self.is_auth().await? ...`.
An `is_auth` error propagates via `?` with the credential slot as it stands;
`Ok(false)` clears the slot and fails with `login failed`; `Ok(true)` returns
the authenticated client. -/
def finishAuth (c : Client) (env : Env) : Option (Except (AuthErr × Option Auth) Client) :=
  match is_auth c env with
  | .error e => some (.error (e, c.auth))
  | .ok true => some (.ok c)
  | .ok false => some (.error (.loginFailed, none))

/-- `Client::authenticate`.  The result is `none` when the run panics (only
the masking step can); an error carries the credential slot (`self.auth`) at
the moment of the failure.  The second `self.credentials.clone()` match of the
source (line 218) necessarily takes the `Some` branch because `credentials`
was matched `Some` at entry and never written, and the token request is sent
by a basic-auth *clone* of the client, leaving `self.auth` untouched. -/
def authenticate (c0 : Client) (env : Env) (scopes : List String) :
    Option (Except (AuthErr × Option Auth) Client) :=
  match c0.credentials with
  | none => some (.error (.noCredentials, c0.auth))
  | some (user, password) =>
    -- from here on `self.auth` has been reset to `None` (line 197), so every
    -- error until a credential is adopted carries a `none` slot
    if env.urlParse (c0.base_url ++ "/v2/") = false then
      some (.error (.urlParseError (c0.base_url ++ "/v2/"), none))
    else
      match env.probe with
      | none => some (.error (.transportError, none))
      | some probeResp =>
        match probeResp.www_authenticate with
        | none => some (.error (.missingHeader, none))
        | some headerValue =>
          match from_www_authentication_header headerValue with
          | .error e => some (.error (.headerParseError e, none))
          | .ok (.Basic _) =>
            finishAuth { c0 with auth := some (.Basic ⟨user, some password⟩) } env
          | .ok (.Bearer bearerContent) =>
            if env.urlParse (auth_ep bearerContent scopes) = false then
              some (.error (.urlParseError (auth_ep bearerContent scopes), none))
            else
              match env.tokenResp with
              | none => some (.error (.transportError, none))
              | some tokenResponse =>
                if tokenResponse.status ≠ 200 then
                  some (.error (.wrongTokenStatus tokenResponse.status, none))
                else
                  match tokenResponse.body with
                  | none => some (.error (.bodyJsonError, none))
                  | some bearerAuth =>
                    if bearerAuth.token = "unauthenticated" then
                      some (.error (.tokenUnauthenticated, none))
                    else if bearerAuth.token = "" then
                      some (.error (.tokenEmpty, none))
                    else
                      match maskToken bearerAuth.token.toList with
                      | none => none
                      | some _ =>
                        finishAuth { c0 with auth := some (.Bearer bearerAuth) } env


/-! ## Helper lemmas -/

theorem toList_append (a b : String) : (a ++ b).toList = a.toList ++ b.toList := rfl

theorem length_dropWhile_le (p : Char → Bool) (l : List Char) :
    (l.dropWhile p).length ≤ l.length := by
  induction l with
  | nil => simp [List.dropWhile]
  | cons c l ih =>
    rw [List.dropWhile_cons]
    split
    · exact Nat.le_succ_of_le ih
    · exact Nat.le_refl _

theorem takeWhile_all_append (p : Char → Bool) (l1 : List Char) (b : Char) (l2 : List Char)
    (h1 : ∀ c ∈ l1, p c = true) (hb : p b = false) :
    (l1 ++ b :: l2).takeWhile p = l1 := by
  induction l1 with
  | nil => simp [List.takeWhile_cons, hb]
  | cons a l ih =>
    have ha : p a = true := h1 a (by simp)
    simp only [List.cons_append, List.takeWhile_cons, ha, if_true]
    rw [ih (fun c hc => h1 c (by simp [hc]))]

theorem dropWhile_all_append (p : Char → Bool) (l1 : List Char) (b : Char) (l2 : List Char)
    (h1 : ∀ c ∈ l1, p c = true) (hb : p b = false) :
    (l1 ++ b :: l2).dropWhile p = b :: l2 := by
  induction l1 with
  | nil => simp [List.dropWhile_cons, hb]
  | cons a l ih =>
    have ha : p a = true := h1 a (by simp)
    simp only [List.cons_append, List.dropWhile_cons, ha, if_true]
    exact ih (fun c hc => h1 c (by simp [hc]))

theorem isLowerAz_not_isWs {c : Char} (h : isLowerAz c = true) : isWs c = false := by
  simp only [isLowerAz, Bool.and_eq_true, decide_eq_true_eq] at h
  simp only [isWs, decide_eq_false_iff_not, List.mem_cons, List.not_mem_nil, or_false]
  intro hmem
  omega

theorem isLowerAz_not_isUpperAz {c : Char} (h : isLowerAz c = true) : isUpperAz c = false := by
  simp only [isLowerAz, Bool.and_eq_true, decide_eq_true_eq] at h
  simp only [isUpperAz, Bool.and_eq_false_iff, decide_eq_false_iff_not]
  omega

theorem isLowerAz_notQuote {c : Char} (h : isLowerAz c = true) : notQuote c = true := by
  simp only [isLowerAz, Bool.and_eq_true, decide_eq_true_eq] at h
  simp only [notQuote, bne_iff_ne, ne_eq]
  intro he
  subst he
  exact absurd h (by decide)


theorem expectChar_eq_some {c : Char} {cs r : List Char}
    (h : expectChar c cs = some r) : cs = c :: r := by
  cases cs with
  | nil => cases h
  | cons d rest =>
    unfold expectChar at h
    simp only [] at h
    split at h
    case isTrue hdc =>
      cases h
      rw [hdc]
    case isFalse => cases h

theorem matchAfterKey_length {cs v r : List Char}
    (h : matchAfterKey cs = some (v, r)) : r.length < cs.length := by
  unfold matchAfterKey at h
  cases h1 : expectChar '=' (cs.dropWhile isWs) with
  | none => rw [h1] at h; cases h
  | some r1 =>
    rw [h1] at h
    simp only [] at h
    cases h2 : expectChar '"' (r1.dropWhile isWs) with
    | none => rw [h2] at h; cases h
    | some r2 =>
      rw [h2] at h
      simp only [] at h
      split at h
      · cases h
      · cases h3 : r2.dropWhile notQuote with
        | nil => rw [h3] at h; cases h
        | cons x r3 =>
          rw [h3] at h
          simp only [] at h
          cases h
          have e1 := expectChar_eq_some h1
          have e2 := expectChar_eq_some h2
          have d1 := length_dropWhile_le isWs cs
          rw [e1] at d1
          have d2 := length_dropWhile_le isWs r1
          rw [e2] at d2
          have d3 := length_dropWhile_le notQuote r2
          rw [h3] at d3
          have d4 := length_dropWhile_le isWs r3
          simp only [List.length_cons] at d1 d2 d3
          omega

theorem matchKv_length {cs k v r : List Char}
    (h : matchKv cs = some (k, v, r)) : r.length < cs.length := by
  unfold matchKv at h
  split at h
  · cases h
  · cases h1 : matchAfterKey (cs.dropWhile isLowerAz) with
    | none => rw [h1] at h; cases h
    | some vr =>
      obtain ⟨v', r'⟩ := vr
      rw [h1] at h
      simp only [] at h
      cases h
      have e1 := matchAfterKey_length h1
      have e2 := length_dropWhile_le isLowerAz cs
      omega

theorem matchAt_length {cs : List Char} {cap : Capture} {r : List Char}
    (h : matchAt cs = some (cap, r)) : r.length < cs.length := by
  unfold matchAt at h
  cases hd : cs.dropWhile isWs with
  | nil => rw [hd] at h; cases h
  | cons c rest =>
    rw [hd] at h
    simp only [] at h
    have e0 := length_dropWhile_le isWs cs
    rw [hd] at e0
    simp only [List.length_cons] at e0
    split at h
    · split at h
      · cases h
      · cases h1 : matchKv ((rest.dropWhile isLowerAz).dropWhile isWs) with
        | some kvr =>
          obtain ⟨k, v, r'⟩ := kvr
          rw [h1] at h
          simp only [] at h
          cases h
          have e1 := matchKv_length h1
          have e2 := length_dropWhile_le isWs (rest.dropWhile isLowerAz)
          have e3 := length_dropWhile_le isLowerAz rest
          omega
        | none =>
          rw [h1] at h
          simp only [] at h
          split at h
          · cases h2 : matchAfterKey (rest.dropWhile isLowerAz) with
            | none => rw [h2] at h; cases h
            | some vr =>
              obtain ⟨v, r'⟩ := vr
              rw [h2] at h
              simp only [] at h
              cases h
              have e1 := matchAfterKey_length h2
              have e2 := length_dropWhile_le isLowerAz rest
              omega
          · cases h
    · cases h1 : matchKv (c :: rest) with
      | none => rw [h1] at h; cases h
      | some kvr =>
        obtain ⟨k, v, r'⟩ := kvr
        rw [h1] at h
        simp only [] at h
        cases h
        have e1 := matchKv_length h1
        simp only [List.length_cons] at e1
        omega

theorem scanAux_nil (f : Nat) : scanAux f [] = [] := by
  cases f <;> rfl

theorem scanAux_congr :
    ∀ (f g : Nat) (cs : List Char), cs.length ≤ f → cs.length ≤ g →
      scanAux f cs = scanAux g cs := by
  intro f
  induction f with
  | zero =>
    intro g cs hf _
    have : cs = [] := List.eq_nil_of_length_eq_zero (Nat.le_zero.mp hf)
    subst this
    rw [scanAux_nil, scanAux_nil]
  | succ f ih =>
    intro g cs hf hg
    cases cs with
    | nil => rw [scanAux_nil, scanAux_nil]
    | cons c l =>
      cases g with
      | zero => simp at hg
      | succ g' =>
        simp only [List.length_cons] at hf hg
        show scanAux (f + 1) (c :: l) = scanAux (g' + 1) (c :: l)
        cases hm : matchAt (c :: l) with
        | none =>
          unfold scanAux
          rw [hm]
          exact ih g' l (by omega) (by omega)
        | some pr =>
          obtain ⟨cap, rest⟩ := pr
          have hlt := matchAt_length hm
          simp only [List.length_cons] at hlt
          unfold scanAux
          rw [hm]
          simp only []
          rw [ih g' rest (by omega) (by omega)]

theorem scanList_cons_some {c : Char} {l : List Char} {cap : Capture} {rest : List Char}
    (h : matchAt (c :: l) = some (cap, rest)) :
    scanList (c :: l) = cap :: scanList rest := by
  have hlt := matchAt_length h
  simp only [List.length_cons] at hlt
  show scanAux (l.length + 1) (c :: l) = cap :: scanList rest
  unfold scanAux
  rw [h]
  simp only []
  rw [scanAux_congr l.length rest.length rest (by omega) (Nat.le_refl _)]
  rfl

theorem scanList_cons_none {c : Char} {l : List Char}
    (h : matchAt (c :: l) = none) :
    scanList (c :: l) = scanList l := by
  show scanAux (l.length + 1) (c :: l) = scanList l
  unfold scanAux
  rw [h]
  simp only []
  rfl

theorem scanList_nil : scanList [] = [] := rfl

theorem isLowerAz_not_isWs' {c : Char} (h : isLowerAz c = true) : ¬ isWs c = true := by
  simp [isLowerAz_not_isWs h]

theorem isLowerAz_not_isUpperAz' {c : Char} (h : isLowerAz c = true) : ¬ isUpperAz c = true := by
  simp [isLowerAz_not_isUpperAz h]

theorem expectChar_cons_self (c : Char) (l : List Char) : expectChar c (c :: l) = some l := by
  unfold expectChar
  simp

theorem matchAfterKey_structured (v rest : List Char) (hv : v ≠ [])
    (hvq : ∀ c ∈ v, notQuote c = true) :
    matchAfterKey ('=' :: '"' :: (v ++ '"' :: rest)) = some (v, rest.dropWhile isWs) := by
  have htv : (v ++ '"' :: rest).takeWhile notQuote = v :=
    takeWhile_all_append _ _ _ _ hvq (by decide)
  have hdv : (v ++ '"' :: rest).dropWhile notQuote = '"' :: rest :=
    dropWhile_all_append _ _ _ _ hvq (by decide)
  unfold matchAfterKey
  rw [List.dropWhile_cons_of_neg (by decide : ¬ isWs '=' = true)]
  rw [expectChar_cons_self]
  simp only []
  rw [List.dropWhile_cons_of_neg (by decide : ¬ isWs '"' = true)]
  rw [expectChar_cons_self]
  simp only []
  rw [htv, hdv]
  rw [if_neg hv]

theorem matchKv_structured (k v rest : List Char) (hk : k ≠ [])
    (hkl : ∀ c ∈ k, isLowerAz c = true) (hv : v ≠ [])
    (hvq : ∀ c ∈ v, notQuote c = true) :
    matchKv (k ++ '=' :: '"' :: (v ++ '"' :: rest)) = some (k, v, rest.dropWhile isWs) := by
  have htk : (k ++ '=' :: '"' :: (v ++ '"' :: rest)).takeWhile isLowerAz = k :=
    takeWhile_all_append _ _ _ _ hkl (by decide)
  have hdk : (k ++ '=' :: '"' :: (v ++ '"' :: rest)).dropWhile isLowerAz
      = '=' :: '"' :: (v ++ '"' :: rest) :=
    dropWhile_all_append _ _ _ _ hkl (by decide)
  unfold matchKv
  rw [htk, hdk]
  rw [if_neg hk]
  rw [matchAfterKey_structured v rest hv hvq]

theorem matchAt_bearer (k v rest : List Char) (hk : k ≠ [])
    (hkl : ∀ c ∈ k, isLowerAz c = true) (hv : v ≠ [])
    (hvq : ∀ c ∈ v, notQuote c = true) :
    matchAt ('B' :: 'e' :: 'a' :: 'r' :: 'e' :: 'r' :: ' ' :: (k ++ '=' :: '"' :: (v ++ '"' :: rest)))
      = some (⟨some ['B', 'e', 'a', 'r', 'e', 'r'], k, v⟩, rest.dropWhile isWs) := by
  cases k with
  | nil => exact absurd rfl hk
  | cons kh kt =>
    have hkh : isLowerAz kh = true := hkl kh (List.mem_cons_self _ _)
    unfold matchAt
    rw [List.dropWhile_cons_of_neg (by decide : ¬ isWs 'B' = true)]
    simp only []
    rw [if_pos (by decide : isUpperAz 'B' = true)]
    have h1 : ('e' :: 'a' :: 'r' :: 'e' :: 'r' :: ' '
          :: ((kh :: kt) ++ '=' :: '"' :: (v ++ '"' :: rest))).takeWhile isLowerAz
        = ['e', 'a', 'r', 'e', 'r'] := by
      rw [List.takeWhile_cons_of_pos (by decide), List.takeWhile_cons_of_pos (by decide),
        List.takeWhile_cons_of_pos (by decide), List.takeWhile_cons_of_pos (by decide),
        List.takeWhile_cons_of_pos (by decide), List.takeWhile_cons_of_neg (by decide)]
    have h2 : ('e' :: 'a' :: 'r' :: 'e' :: 'r' :: ' '
          :: ((kh :: kt) ++ '=' :: '"' :: (v ++ '"' :: rest))).dropWhile isLowerAz
        = ' ' :: ((kh :: kt) ++ '=' :: '"' :: (v ++ '"' :: rest)) := by
      rw [List.dropWhile_cons_of_pos (by decide), List.dropWhile_cons_of_pos (by decide),
        List.dropWhile_cons_of_pos (by decide), List.dropWhile_cons_of_pos (by decide),
        List.dropWhile_cons_of_pos (by decide), List.dropWhile_cons_of_neg (by decide)]
    rw [h1, h2]
    rw [if_neg (by decide : ¬ (['e', 'a', 'r', 'e', 'r'] : List Char) = [])]
    rw [List.dropWhile_cons_of_pos (by decide : isWs ' ' = true)]
    rw [List.cons_append]
    rw [List.dropWhile_cons_of_neg (isLowerAz_not_isWs' hkh)]
    rw [← List.cons_append]
    rw [matchKv_structured (kh :: kt) v rest hk hkl hv hvq]

theorem matchAt_pair (k v rest : List Char) (hk : k ≠ [])
    (hkl : ∀ c ∈ k, isLowerAz c = true) (hv : v ≠ [])
    (hvq : ∀ c ∈ v, notQuote c = true) :
    matchAt (k ++ '=' :: '"' :: (v ++ '"' :: rest))
      = some (⟨none, k, v⟩, rest.dropWhile isWs) := by
  cases k with
  | nil => exact absurd rfl hk
  | cons kh kt =>
    have hkh : isLowerAz kh = true := hkl kh (List.mem_cons_self _ _)
    unfold matchAt
    rw [List.cons_append]
    rw [List.dropWhile_cons_of_neg (isLowerAz_not_isWs' hkh)]
    simp only []
    rw [if_neg (isLowerAz_not_isUpperAz' hkh)]
    rw [← List.cons_append]
    rw [matchKv_structured (kh :: kt) v rest hk hkl hv hvq]

theorem matchAt_comma (cs : List Char) : matchAt (',' :: cs) = none := by
  have hkv : matchKv (',' :: cs) = none := by
    unfold matchKv
    rw [List.takeWhile_cons_of_neg (by decide : ¬ isLowerAz ',' = true)]
    rw [if_pos rfl]
  unfold matchAt
  rw [List.dropWhile_cons_of_neg (by decide : ¬ isWs ',' = true)]
  simp only []
  rw [if_neg (by decide : ¬ isUpperAz ',' = true)]
  rw [hkv]

/-! ## Structured headers: `<scheme> k1="v1",k2="v2",...` -/

/-- The characters of `,k="v"` for each listed pair. -/
def pairsTail : List (List Char × List Char) → List Char
  | [] => []
  | (k, v) :: rest => ',' :: (k ++ '=' :: '"' :: (v ++ '"' :: pairsTail rest))

/-- Well-formed pair list: nonempty lowercase keys, nonempty quote-free values. -/
def wfPairs (ps : List (List Char × List Char)) : Prop :=
  ∀ p ∈ ps, p.1 ≠ [] ∧ (∀ c ∈ p.1, isLowerAz c = true) ∧
    p.2 ≠ [] ∧ (∀ c ∈ p.2, notQuote c = true)

theorem pairsTail_dropWhile (ps : List (List Char × List Char)) :
    (pairsTail ps).dropWhile isWs = pairsTail ps := by
  cases ps with
  | nil => rfl
  | cons p rest =>
    obtain ⟨k, v⟩ := p
    show ((',' :: _).dropWhile isWs) = _
    rw [List.dropWhile_cons_of_neg (by decide : ¬ isWs ',' = true)]
    rfl

theorem scanList_pairsTail (ps : List (List Char × List Char)) (h : wfPairs ps) :
    scanList (pairsTail ps) = ps.map (fun p => ⟨none, p.1, p.2⟩) := by
  induction ps with
  | nil => rfl
  | cons p rest ih =>
    obtain ⟨k, v⟩ := p
    obtain ⟨hk, hkl, hv, hvq⟩ := h (k, v) (List.mem_cons_self _ _)
    have hrest : wfPairs rest := fun q hq => h q (List.mem_cons_of_mem _ hq)
    show scanList (',' :: (k ++ '=' :: '"' :: (v ++ '"' :: pairsTail rest))) = _
    rw [scanList_cons_none (matchAt_comma _)]
    have hm := matchAt_pair k v (pairsTail rest) hk hkl hv hvq
    cases k with
    | nil => exact absurd rfl hk
    | cons kh kt =>
      rw [List.cons_append] at hm
      rw [List.cons_append, scanList_cons_some hm, pairsTail_dropWhile, ih hrest]
      rfl

/-- Scan of a full `Bearer k1="v1"<pairs>` header. -/
theorem scanList_bearerHeader (k1 v1 : List Char) (ps : List (List Char × List Char))
    (hk1 : k1 ≠ []) (hk1l : ∀ c ∈ k1, isLowerAz c = true)
    (hv1 : v1 ≠ []) (hv1q : ∀ c ∈ v1, notQuote c = true)
    (hps : wfPairs ps) :
    scanList ('B' :: 'e' :: 'a' :: 'r' :: 'e' :: 'r' :: ' '
        :: (k1 ++ '=' :: '"' :: (v1 ++ '"' :: pairsTail ps)))
      = ⟨some ['B', 'e', 'a', 'r', 'e', 'r'], k1, v1⟩ :: ps.map (fun p => ⟨none, p.1, p.2⟩) := by
  have hm := matchAt_bearer k1 v1 (pairsTail ps) hk1 hk1l hv1 hv1q
  rw [scanList_cons_some hm, pairsTail_dropWhile, scanList_pairsTail ps hps]

/-! ## JSON-clean values -/

theorem jsonUnescapeAux_clean (l : List Char)
    (h : ∀ c ∈ l, ¬ c = '\\' ∧ 32 ≤ c.toNat) :
    ∀ f : Nat, l.length ≤ f → jsonUnescapeAux f l = some l := by
  induction l with
  | nil => intro f _; cases f <;> rfl
  | cons c r ih =>
    intro f hf
    obtain ⟨hc1, hc2⟩ := h c (List.mem_cons_self _ _)
    have hr := ih (fun d hd => h d (List.mem_cons_of_mem _ hd))
    cases f with
    | zero => simp at hf
    | succ g =>
      show jsonUnescapeAux (g + 1) (c :: r) = some (c :: r)
      rw [jsonUnescapeAux]
      rw [if_neg hc1, if_neg (by omega : ¬ c.toNat < 32)]
      rw [hr g (by simp at hf; omega)]
      rfl

theorem jsonUnescape_clean (l : List Char)
    (h : ∀ c ∈ l, ¬ c = '\\' ∧ 32 ≤ c.toNat) : jsonUnescape l = some l :=
  jsonUnescapeAux_clean l h l.length (Nat.le_refl _)

theorem mk_toList (s : String) : String.mk s.toList = s := rfl

theorem notQuote_of_ne {c : Char} (h : c ≠ '"') : notQuote c = true := by
  simp [notQuote, h]

theorem wfPairs_nil : wfPairs [] := fun p hp => absurd hp (List.not_mem_nil p)

theorem wfPairs_cons {k v : List Char} {ps : List (List Char × List Char)}
    (h1 : k ≠ []) (h2 : ∀ c ∈ k, isLowerAz c = true) (h3 : v ≠ [])
    (h4 : ∀ c ∈ v, notQuote c = true) (h5 : wfPairs ps) : wfPairs ((k, v) :: ps) := by
  intro p hp
  rcases List.mem_cons.mp hp with h | h
  · subst h
    exact ⟨h1, h2, h3, h4⟩
  · exact h5 p h

/-- The textual tail `,k2="v2",k3="v3",...` appended after the first pair of a
challenge header built from a list of key-value attribute pairs. -/
def renderPairsTail : List (String × String) → String
  | [] => ""
  | (k, v) :: rest => "," ++ k ++ "=\"" ++ v ++ "\"" ++ renderPairsTail rest

theorem renderPairsTail_toList (ps : List (String × String)) :
    (renderPairsTail ps).toList
      = pairsTail (ps.map (fun p => (p.1.toList, p.2.toList))) := by
  induction ps with
  | nil => rfl
  | cons p rest ih =>
    obtain ⟨k, v⟩ := p
    show ("," ++ k ++ "=\"" ++ v ++ "\"" ++ renderPairsTail rest).toList = _
    have e1 : ",".toList = [','] := rfl
    have e2 : "=\"".toList = ['=', '"'] := rfl
    have e3 : "\"".toList = ['"'] := rfl
    simp only [toList_append, e1, e2, e3, ih, pairsTail, List.map_cons, List.cons_append,
      List.nil_append, List.append_assoc]

theorem map_key_value (psl : List (List Char × List Char)) :
    List.map (fun c => (c.key, c.value))
      (List.map (fun p => ({ method := none, key := p.1, value := p.2 } : Capture)) psl)
      = psl := by
  induction psl with
  | nil => rfl
  | cons p rest ih => simp only [List.map_cons, ih]

theorem deserBearerFields_no_realm (ps : List (List Char × List Char)) :
    ∀ s sc : Option (List Char),
      (∀ p ∈ ps, p.1 ≠ "realm".toList) →
      (∀ p ∈ ps, ∃ w, jsonUnescape p.2 = some w) →
      (∀ w, s = some w → ∀ p ∈ ps, p.1 ≠ "service".toList) →
      (∀ w, sc = some w → ∀ p ∈ ps, p.1 ≠ "scope".toList) →
      (ps.map Prod.fst).Nodup →
      deserBearerFields ps none s sc = .error (.missingField "realm") := by
  induction ps with
  | nil => intro s sc _ _ _ _ _; rfl
  | cons p rest ih =>
    obtain ⟨k, v⟩ := p
    intro s sc hnr hcl hs hsc hnd
    have hkr : k ≠ "realm".toList := hnr (k, v) (List.mem_cons_self _ _)
    obtain ⟨w0, hw0⟩ := hcl (k, v) (List.mem_cons_self _ _)
    simp only [List.map_cons] at hnd
    have hnd2 := List.nodup_cons.mp hnd
    revert hs hsc
    have hstep : deserBearerFields ((k, v) :: rest) none s sc
        = (if k = "realm".toList then
            match jsonUnescape v with
            | none => .error .invalidJsonString
            | some v2 => deserBearerFields rest (some v2) s sc
          else if k = "service".toList then
            match s with
            | some _ => .error (.duplicateField "service")
            | none =>
              match jsonUnescape v with
              | none => .error .invalidJsonString
              | some v2 => deserBearerFields rest none (some v2) sc
          else if k = "scope".toList then
            match sc with
            | some _ => .error (.duplicateField "scope")
            | none =>
              match jsonUnescape v with
              | none => .error .invalidJsonString
              | some v2 => deserBearerFields rest none s (some v2)
          else
            match jsonUnescape v with
            | none => .error .invalidJsonString
            | some _ => deserBearerFields rest none s sc) := rfl
    rw [hstep]
    intro hs hsc
    rw [if_neg hkr]
    by_cases hks : k = "service".toList
    · rw [if_pos hks]
      cases s with
      | some w => exact absurd hks (hs w rfl (k, v) (List.mem_cons_self _ _))
      | none =>
        simp only []
        rw [hw0]
        simp only []
        apply ih (some w0) sc
        · exact fun q hq => hnr q (List.mem_cons_of_mem _ hq)
        · exact fun q hq => hcl q (List.mem_cons_of_mem _ hq)
        · intro w _ q hq hq1
          exact hnd2.1 (List.mem_map.mpr ⟨q, hq, hq1.trans hks.symm⟩)
        · intro w hw q hq
          exact hsc w hw q (List.mem_cons_of_mem _ hq)
        · exact hnd2.2
    · rw [if_neg hks]
      by_cases hksc : k = "scope".toList
      · rw [if_pos hksc]
        cases sc with
        | some w => exact absurd hksc (hsc w rfl (k, v) (List.mem_cons_self _ _))
        | none =>
          simp only []
          rw [hw0]
          simp only []
          apply ih s (some w0)
          · exact fun q hq => hnr q (List.mem_cons_of_mem _ hq)
          · exact fun q hq => hcl q (List.mem_cons_of_mem _ hq)
          · intro w hw q hq
            exact hs w hw q (List.mem_cons_of_mem _ hq)
          · intro w _ q hq hq1
            exact hnd2.1 (List.mem_map.mpr ⟨q, hq, hq1.trans hksc.symm⟩)
          · exact hnd2.2
      · rw [if_neg hksc]
        rw [hw0]
        simp only []
        apply ih s sc
        · exact fun q hq => hnr q (List.mem_cons_of_mem _ hq)
        · exact fun q hq => hcl q (List.mem_cons_of_mem _ hq)
        · intro w hw q hq
          exact hs w hw q (List.mem_cons_of_mem _ hq)
        · intro w hw q hq
          exact hsc w hw q (List.mem_cons_of_mem _ hq)
        · exact hnd2.2

/-! ## `auth_ep` versus the spec's composition rule -/

theorem scopeAcc_of_two_le (l : List String) :
    ∀ (acc : String) (i : Nat), 2 ≤ i → scopeAcc acc i l = acc ++ specScopeTail l := by
  induction l with
  | nil =>
    intro acc i _
    rw [scopeAcc, specScopeTail, String.append_empty]
  | cons s rest ih =>
    intro acc i hi
    rw [scopeAcc, specScopeTail, if_pos (by omega : 1 < i), ih _ (i + 1) (by omega)]
    rw [String.append_assoc acc "&" "scope="]
    rw [show ("&" ++ "scope=" : String) = "&scope=" from rfl]
    rw [String.append_assoc, String.append_assoc, String.append_assoc]

theorem append_ne_empty_service (sv : String) : ¬ ("?service=" ++ sv) = "" := by
  intro h
  have h2 : ("?service=" ++ sv).toList = "".toList := by rw [h]
  rw [toList_append] at h2
  simp at h2

theorem auth_ep_eq_spec (b : WwwAuthenticateHeaderContentBearer) (scopes : List String) :
    auth_ep b scopes = auth_ep_spec b scopes := by
  obtain ⟨realm, service, scope⟩ := b
  cases scopes with
  | nil => cases service <;> rfl
  | cons s0 rest =>
    cases rest with
    | nil =>
      cases service with
      | none => simp [auth_ep, auth_ep_spec, scopeAcc, String.append_empty]
      | some sv =>
        simp [auth_ep, auth_ep_spec, scopeAcc, String.append_empty,
          append_ne_empty_service sv, String.append_assoc]
    | cons s1 rest2 =>
      cases service with
      | none =>
        simp [auth_ep, auth_ep_spec, scopeAcc, scopeAcc_of_two_le, String.append_empty,
          String.append_assoc]
      | some sv =>
        simp [auth_ep, auth_ep_spec, scopeAcc, scopeAcc_of_two_le, String.append_empty,
          append_ne_empty_service sv, String.append_assoc]

/-! ## Masking lemmas -/

theorem utf8Len_ascii {c : Char} (h : c.toNat < 128) : utf8Len c = 1 := by
  unfold utf8Len
  rw [if_pos (by omega)]

theorem takeBytes_ascii (t : List Char) :
    ∀ k, (∀ c ∈ t, c.toNat < 128) → k ≤ t.length → takeBytes t k = some (t.take k) := by
  induction t with
  | nil =>
    intro k _ hk
    cases k with
    | zero => rfl
    | succ n => simp at hk
  | cons c rest ih =>
    intro k h hk
    cases k with
    | zero => rfl
    | succ n =>
      have hc := utf8Len_ascii (h c (List.mem_cons_self _ _))
      rw [takeBytes, hc]
      rw [if_pos (by omega : 1 ≤ n + 1)]
      rw [show n + 1 - 1 = n from by omega]
      rw [ih n (fun d hd => h d (List.mem_cons_of_mem _ hd)) (by simp at hk; omega)]
      rfl

theorem dropBytes_ascii (t : List Char) :
    ∀ k, (∀ c ∈ t, c.toNat < 128) → k ≤ t.length → dropBytes t k = some (t.drop k) := by
  induction t with
  | nil =>
    intro k _ hk
    cases k with
    | zero => rfl
    | succ n => simp at hk
  | cons c rest ih =>
    intro k h hk
    cases k with
    | zero => rfl
    | succ n =>
      have hc := utf8Len_ascii (h c (List.mem_cons_self _ _))
      rw [dropBytes, hc]
      rw [if_pos (by omega : 1 ≤ n + 1)]
      rw [show n + 1 - 1 = n from by omega]
      exact ih n (fun d hd => h d (List.mem_cons_of_mem _ hd)) (by simp at hk; omega)

theorem maskToken_ascii (t : List Char) (hne : t ≠ []) (ha : ∀ c ∈ t, c.toNat < 128) :
    maskToken t = some (t.take (min 1 (t.length - 1))
      ++ List.replicate (max (t.length - 1) 1 - min 1 (t.length - 1)) '*'
      ++ t.drop (max (t.length - 1) 1)) := by
  have hpos : 0 < t.length := List.length_pos.mpr hne
  simp only [maskToken]
  rw [if_neg (by omega : ¬ t.length = 0)]
  rw [takeBytes_ascii t (min 1 (t.length - 1)) ha (by omega)]
  rw [dropBytes_ascii t (max (t.length - 1) 1) ha (by omega)]
  simp only []
  rw [if_pos (by omega : min 1 (t.length - 1) ≤ max (t.length - 1) 1)]

theorem maskToken_ascii_isSome (t : List Char) (hne : t ≠ [])
    (ha : ∀ c ∈ t, c.toNat < 128) : (maskToken t).isSome := by
  rw [maskToken_ascii t hne ha]
  rfl

theorem toList_ne_nil {s : String} (h : s ≠ "") : s.toList ≠ [] :=
  fun hl => h (by rw [← mk_toList s, hl])

theorem finishAuth_ne_none (c : Client) (env : Env) : finishAuth c env ≠ none := by
  intro h
  unfold finishAuth at h
  cases h2 : is_auth c env with
  | error e =>
    rw [h2] at h
    exact Option.noConfusion h
  | ok b =>
    rw [h2] at h
    cases b <;> exact Option.noConfusion h

/-- Whenever the client entering the verification step carries an adopted
credential, a parseable base url and a concrete probe status `v`, `finishAuth`
returns success for 200, the login-failed error with a cleared slot for 401,
and the wrong-status error with the credential still in the slot otherwise. -/
theorem finishAuth_verify (c2 : Client) (env : Env) (a : Auth) (v : Nat)
    (hauth : c2.auth = some a)
    (hurl : env.urlParse (c2.base_url ++ "/v2/") = true)
    (hv : env.verifyStatus = some v) :
    finishAuth c2 env
      = (if v = 200 then some (.ok c2)
        else if v = 401 then some (.error (.loginFailed, none))
        else some (.error (.wrongProbeStatus v, some a))) := by
  have hia : is_auth c2 env
      = (if v = 200 then Except.ok true
        else if v = 401 then Except.ok false
        else Except.error (AuthErr.wrongProbeStatus v)) := by
    unfold is_auth
    rw [hurl, hv]
    rfl
  unfold finishAuth
  rw [hia]
  by_cases h200 : v = 200
  · subst h200
    rfl
  · by_cases h401 : v = 401
    · subst h401
      rfl
    · rw [if_neg h200, if_neg h401, if_neg h200, if_neg h401]
      show some (Except.error (AuthErr.wrongProbeStatus v, c2.auth)) = _
      rw [hauth]

/-! ## The claims -/

/-- C1: for every Bearer challenge and every list of requested scopes, the
token-endpoint URL built by `auth_ep` equals the realm, followed by
`?service=<service>` when a service attribute is present, followed by the
scope suffix: nothing when no scopes are requested; the first scope (as
`scope=<scope>`) prefixed with `?` when no service segment was emitted and
with `&` otherwise; the second appended with no separator at all; every scope
from the third onward appended as `&scope=<scope>` (`auth_ep_spec` states
this composition literally). -/
theorem c1_auth_ep_matches_spec (b : WwwAuthenticateHeaderContentBearer)
    (scopes : List String) : auth_ep b scopes = auth_ep_spec b scopes :=
  auth_ep_eq_spec b scopes

/-- C2 counterexample: for the one-character token `a` the mask replaces the
single character by `*`, so the first (and last) character of the token is
not preserved visible, contradicting the claim; masking still returns a
same-length string without panicking. -/
theorem c2_counterexample :
    maskToken ['a'] = some ['*'] ∧ (['*'] : List Char) ≠ ['a'] := by decide

/-- C2 (amended): for every token of character count 1 or 2 consisting of
single-byte (ASCII) characters, the masking operation does not panic and
returns a string of the same length; for count 2 the token is returned
unchanged (both boundary characters visible), while for count 1 the sole
character is replaced by `*` (nothing remains visible).  The ASCII
restriction is forced by the byte-level `replace_range`: a length-1 or
length-2 token containing a multi-byte character panics on a non-boundary
byte index. -/
theorem c2_mask_short_tokens (t : List Char)
    (hlen : t.length = 1 ∨ t.length = 2) (ha : ∀ c ∈ t, c.toNat < 128) :
    (∃ m, maskToken t = some m ∧ m.length = t.length) ∧
    (t.length = 2 → maskToken t = some t) ∧
    (t.length = 1 → maskToken t = some ['*']) := by
  have hne : t ≠ [] := by
    intro h0
    subst h0
    simp at hlen
  have hm := maskToken_ascii t hne ha
  rcases hlen with h1 | h2
  · obtain ⟨a, rfl⟩ : ∃ a, t = [a] := by
      cases t with
      | nil => simp at h1
      | cons a tl =>
        cases tl with
        | nil => exact ⟨a, rfl⟩
        | cons b tl2 => simp at h1
    simp only [List.length_cons, List.length_nil] at hm
    norm_num at hm
    exact ⟨⟨['*'], hm, by simp⟩, by intro h2; simp at h2, fun _ => hm⟩
  · obtain ⟨a, b, rfl⟩ : ∃ a b, t = [a, b] := by
      cases t with
      | nil => simp at h2
      | cons a tl =>
        cases tl with
        | nil => simp at h2
        | cons b tl2 =>
          cases tl2 with
          | nil => exact ⟨a, b, rfl⟩
          | cons c tl3 => simp at h2
    simp only [List.length_cons, List.length_nil] at hm
    norm_num at hm
    exact ⟨⟨[a, b], hm, by simp⟩, fun _ => hm, by intro h1; simp at h1⟩

theorem c2_witness :
    (∃ m, maskToken ['x', 'y'] = some m ∧ m.length = (['x', 'y'] : List Char).length) ∧
    ((['x', 'y'] : List Char).length = 2 → maskToken ['x', 'y'] = some ['x', 'y']) ∧
    ((['x', 'y'] : List Char).length = 1 → maskToken ['x', 'y'] = some ['*']) :=
  c2_mask_short_tokens ['x', 'y'] (by decide) (by decide)

/-- C3 counterexample: the masking step can panic even though it is never
reached with an empty token: a token consisting of the single two-byte
character `é` passes both token guards and `replace_range` hits byte index 1,
which is not a character boundary, so `authenticate` panics (modelled as
`none`). -/
theorem c3_counterexample :
    authenticate ⟨"http://r", some ("u", "p"), none⟩
      ⟨fun _ => true, some ⟨401, some "Bearer realm=\"http://r/t\""⟩,
        some ⟨200, some ⟨"é", none, none, none⟩⟩, some 200⟩ [] = none := by decide

/-- C3 (amended): the masking operation is never reached with a token of
length 0 — an empty token is rejected as an authentication failure before
masking, so `chars_count - 1` never underflows and an empty token can never
make `authenticate` panic (first conjunct); moreover, whenever every token
the transport can deliver consists of single-byte (ASCII) characters,
`authenticate` cannot panic at all (second conjunct).  The claim's blanket
"the masking step cannot panic" is not true for multi-byte tokens (see the
counterexample). -/
theorem c3_masking_safety :
    (∀ (c : Client) (env : Env) (scopes : List String) (tr : TokenResponse) (b : BearerAuth),
      env.tokenResp = some tr → tr.body = some b → b.token = "" →
      authenticate c env scopes ≠ none) ∧
    (∀ (c : Client) (env : Env) (scopes : List String),
      (∀ tr b, env.tokenResp = some tr → tr.body = some b →
        ∀ ch ∈ b.token.toList, ch.toNat < 128) →
      authenticate c env scopes ≠ none) := by
  have main : ∀ (c : Client) (env : Env) (scopes : List String),
      (∀ tr b, env.tokenResp = some tr → tr.body = some b →
        ∀ ch ∈ b.token.toList, ch.toNat < 128) →
      authenticate c env scopes ≠ none := by
    intro c env scopes hascii h
    unfold authenticate at h
    split at h
    · exact Option.noConfusion h
    · split at h
      · exact Option.noConfusion h
      · split at h
        · exact Option.noConfusion h
        · split at h
          · exact Option.noConfusion h
          · split at h
            · exact Option.noConfusion h
            · exact finishAuth_ne_none _ _ h
            · split at h
              · exact Option.noConfusion h
              · split at h
                · exact Option.noConfusion h
                case _ tr htr =>
                  split at h
                  · exact Option.noConfusion h
                  · split at h
                    · exact Option.noConfusion h
                    case _ b hb =>
                      split at h
                      case isTrue => exact Option.noConfusion h
                      case isFalse hun =>
                        split at h
                        case isTrue => exact Option.noConfusion h
                        case isFalse hemp =>
                          split at h
                          case _ hmask =>
                            have hne : b.token.toList ≠ [] := toList_ne_nil hemp
                            have hsome := maskToken_ascii_isSome b.token.toList hne
                              (hascii tr b htr hb)
                            rw [hmask] at hsome
                            exact Bool.noConfusion hsome
                          case _ =>
                            exact finishAuth_ne_none _ _ h
  refine ⟨?_, main⟩
  intro c env scopes tr b htr hb hemp
  apply main
  intro tr' b' htr' hb'
  rw [htr] at htr'
  cases htr'
  rw [hb] at hb'
  cases hb'
  rw [hemp]
  intro ch hch
  simp at hch

theorem c3_witness :
    authenticate ⟨"http://r", some ("u", "p"), none⟩
      ⟨fun _ => true, some ⟨401, some "Bearer realm=\"http://r/t\""⟩,
        some ⟨200, some ⟨"tok", none, none, none⟩⟩, some 200⟩ [] ≠ none :=
  c3_masking_safety.2 _ _ []
    (by intro tr b htr hb; cases htr; cases hb; decide)

/-- C4: in every `authenticate` call that takes the Bearer branch and whose
token-endpoint response (status 200) deserializes to a token equal to the
literal `unauthenticated` or to the empty string, `authenticate` fails with
the corresponding invalid-token error and the client's credential slot is
still unset (`none`) at the point of failure — the slot was cleared on entry
and no credential has been adopted yet. -/
theorem c4_invalid_token_rejected (c : Client) (env : Env) (scopes : List String)
    (u p hv : String) (pr : ProbeResponse) (bc : WwwAuthenticateHeaderContentBearer)
    (tr : TokenResponse) (b : BearerAuth)
    (hcred : c.credentials = some (u, p))
    (hurl : env.urlParse (c.base_url ++ "/v2/") = true)
    (hprobe : env.probe = some pr)
    (hhdr : pr.www_authenticate = some hv)
    (hparse : from_www_authentication_header hv = .ok (.Bearer bc))
    (hurl2 : env.urlParse (auth_ep bc scopes) = true)
    (htok : env.tokenResp = some tr)
    (hst : tr.status = 200)
    (hbody : tr.body = some b)
    (hbad : b.token = "unauthenticated" ∨ b.token = "") :
    authenticate c env scopes
      = some (.error ((if b.token = "unauthenticated" then AuthErr.tokenUnauthenticated
          else AuthErr.tokenEmpty), none)) := by
  rcases hbad with hb | hb
  · simp only [authenticate, hcred, hurl, hprobe, hhdr, hparse, hurl2, htok, hst, hbody, hb,
      reduceIte, reduceCtorEq, ne_eq, not_true]
  · simp only [authenticate, hcred, hurl, hprobe, hhdr, hparse, hurl2, htok, hst, hbody, hb,
      reduceIte, reduceCtorEq, ne_eq, not_true]
    rw [if_neg (by decide : ¬ ("" : String) = "unauthenticated")]
    rw [if_neg (by decide : ¬ ("" : String) = "unauthenticated")]

theorem c4_witness :
    authenticate ⟨"http://r", some ("u", "p"), none⟩
      ⟨fun _ => true, some ⟨401, some "Bearer realm=\"http://r/t\""⟩,
        some ⟨200, some ⟨"unauthenticated", none, none, none⟩⟩, some 200⟩ []
      = some (.error (AuthErr.tokenUnauthenticated, none)) :=
  c4_invalid_token_rejected _ _ [] "u" "p" "Bearer realm=\"http://r/t\""
    ⟨401, some "Bearer realm=\"http://r/t\""⟩ ⟨"http://r/t", none, none⟩
    ⟨200, some ⟨"unauthenticated", none, none, none⟩⟩ ⟨"unauthenticated", none, none, none⟩
    rfl rfl rfl rfl (by decide) rfl rfl rfl rfl (Or.inl rfl)

/-- C5 counterexample: a challenge header with the key `realm` occurring
twice does not parse successfully with the first occurrence winning; the
derived deserializer rejects the rebuilt JSON object with a
duplicate-field error. -/
theorem c5_counterexample :
    from_www_authentication_header "Bearer realm=\"a\",realm=\"b\""
      = .error (.duplicateField "realm")
    ∧ from_www_authentication_header "Bearer realm=\"a\",realm=\"b\""
      ≠ .ok (.Bearer ⟨"a", none, none⟩) := by decide

/-- C5 (amended): for every Bearer challenge header in which the recognized
attribute key `realm` occurs twice (well-formed quote-free values, the first
one also backslash- and control-free so its JSON string parses), parsing
fails with a duplicate-field error on `realm` — neither the first nor the
last occurrence wins.  (A duplicated key that is not a recognized field of
the matched variant is instead ignored by `serde_ignored`.) -/
theorem c5_duplicate_realm_errors (A B : String)
    (hA : A.toList ≠ []) (hAc : ∀ c ∈ A.toList, c ≠ '"' ∧ c ≠ '\\' ∧ 32 ≤ c.toNat)
    (hB : B.toList ≠ []) (hBc : ∀ c ∈ B.toList, c ≠ '"') :
    from_www_authentication_header ("Bearer realm=\"" ++ A ++ "\",realm=\"" ++ B ++ "\"")
      = .error (.duplicateField "realm") := by
  have e1 : "Bearer realm=\"".toList
      = ['B', 'e', 'a', 'r', 'e', 'r', ' ', 'r', 'e', 'a', 'l', 'm', '=', '"'] := rfl
  have e2 : "\",realm=\"".toList = ['"', ',', 'r', 'e', 'a', 'l', 'm', '=', '"'] := rfl
  have e4 : "\"".toList = ['"'] := rfl
  have hlist : ("Bearer realm=\"" ++ A ++ "\",realm=\"" ++ B ++ "\"").toList
      = 'B' :: 'e' :: 'a' :: 'r' :: 'e' :: 'r' :: ' '
        :: (['r', 'e', 'a', 'l', 'm'] ++ '=' :: '"' :: (A.toList ++ '"' ::
          pairsTail [(['r', 'e', 'a', 'l', 'm'], B.toList)])) := by
    simp only [toList_append, e1, e2, e4, pairsTail, List.cons_append, List.nil_append,
      List.append_assoc]
  have hwf : wfPairs [(['r', 'e', 'a', 'l', 'm'], B.toList)] :=
    wfPairs_cons (by decide) (by decide) hB (fun c hc => notQuote_of_ne (hBc c hc)) wfPairs_nil
  have hscan := scanList_bearerHeader ['r', 'e', 'a', 'l', 'm'] A.toList
      [(['r', 'e', 'a', 'l', 'm'], B.toList)]
      (by decide) (by decide) hA (fun c hc => notQuote_of_ne ((hAc c hc).1)) hwf
  unfold from_www_authentication_header
  rw [hlist, hscan]
  simp only [List.map]
  unfold deserContent
  rw [if_pos (by decide : (['B', 'e', 'a', 'r', 'e', 'r'] : List Char) = "Bearer".toList)]
  rw [deserBearerFields]
  rw [if_pos (by decide : (['r', 'e', 'a', 'l', 'm'] : List Char) = "realm".toList)]
  rw [jsonUnescape_clean A.toList (fun c hc => ⟨(hAc c hc).2.1, (hAc c hc).2.2⟩)]
  simp only []
  rw [deserBearerFields]
  rw [if_pos (by decide : (['r', 'e', 'a', 'l', 'm'] : List Char) = "realm".toList)]
  rfl

theorem c5_witness :
    from_www_authentication_header ("Bearer realm=\"" ++ "x" ++ "\",realm=\"" ++ "y" ++ "\"")
      = .error (.duplicateField "realm") :=
  c5_duplicate_realm_errors "x" "y" (by decide) (by decide) (by decide) (by decide)

/-- C6 counterexample: the quote-free non-empty realm value `\z` makes
parsing fail (the rebuilt JSON document contains the invalid escape `\z`),
so the claim as stated over all non-empty quote-free strings is false. -/
theorem c6_counterexample :
    from_www_authentication_header "Bearer realm=\"\\z\",service=\"s\",scope=\"c\""
      = .error .invalidJsonString
    ∧ from_www_authentication_header "Bearer realm=\"\\z\",service=\"s\",scope=\"c\""
      ≠ .ok (.Bearer ⟨"\\z", some "s", some "c"⟩) := by decide

/-- C6 (amended): for all non-empty strings `R`, `S`, `SC` over characters
excluding the double quote, the backslash and control characters (below
0x20), parsing `Bearer realm="R",service="S",scope="SC"` succeeds and yields
the Bearer challenge variant with realm `R`, service `some S` and scope
`some SC`.  Quote-freeness alone is not enough: a backslash starts a JSON
escape in the rebuilt document and a control character is rejected by the
JSON string parser. -/
theorem c6_bearer_header_parses (R S SC : String)
    (hR : R.toList ≠ []) (hRc : ∀ c ∈ R.toList, c ≠ '"' ∧ c ≠ '\\' ∧ 32 ≤ c.toNat)
    (hS : S.toList ≠ []) (hSc : ∀ c ∈ S.toList, c ≠ '"' ∧ c ≠ '\\' ∧ 32 ≤ c.toNat)
    (hSC : SC.toList ≠ []) (hSCc : ∀ c ∈ SC.toList, c ≠ '"' ∧ c ≠ '\\' ∧ 32 ≤ c.toNat) :
    from_www_authentication_header
      ("Bearer realm=\"" ++ R ++ "\",service=\"" ++ S ++ "\",scope=\"" ++ SC ++ "\"")
    = .ok (.Bearer ⟨R, some S, some SC⟩) := by
  have e1 : "Bearer realm=\"".toList
      = ['B', 'e', 'a', 'r', 'e', 'r', ' ', 'r', 'e', 'a', 'l', 'm', '=', '"'] := rfl
  have e2 : "\",service=\"".toList
      = ['"', ',', 's', 'e', 'r', 'v', 'i', 'c', 'e', '=', '"'] := rfl
  have e3 : "\",scope=\"".toList = ['"', ',', 's', 'c', 'o', 'p', 'e', '=', '"'] := rfl
  have e4 : "\"".toList = ['"'] := rfl
  have hlist : ("Bearer realm=\"" ++ R ++ "\",service=\"" ++ S ++ "\",scope=\"" ++ SC
        ++ "\"").toList
      = 'B' :: 'e' :: 'a' :: 'r' :: 'e' :: 'r' :: ' '
        :: (['r', 'e', 'a', 'l', 'm'] ++ '=' :: '"' :: (R.toList ++ '"' ::
          pairsTail [(['s', 'e', 'r', 'v', 'i', 'c', 'e'], S.toList),
                     (['s', 'c', 'o', 'p', 'e'], SC.toList)])) := by
    simp only [toList_append, e1, e2, e3, e4, pairsTail, List.cons_append, List.nil_append,
      List.append_assoc]
  have hwf : wfPairs [(['s', 'e', 'r', 'v', 'i', 'c', 'e'], S.toList),
      (['s', 'c', 'o', 'p', 'e'], SC.toList)] :=
    wfPairs_cons (by decide) (by decide) hS (fun c hc => notQuote_of_ne (hSc c hc).1)
      (wfPairs_cons (by decide) (by decide) hSC (fun c hc => notQuote_of_ne (hSCc c hc).1)
        wfPairs_nil)
  have hscan := scanList_bearerHeader ['r', 'e', 'a', 'l', 'm'] R.toList
      [(['s', 'e', 'r', 'v', 'i', 'c', 'e'], S.toList), (['s', 'c', 'o', 'p', 'e'], SC.toList)]
      (by decide) (by decide) hR (fun c hc => notQuote_of_ne ((hRc c hc).1)) hwf
  unfold from_www_authentication_header
  rw [hlist, hscan]
  simp only [List.map]
  unfold deserContent
  rw [if_pos (by decide : (['B', 'e', 'a', 'r', 'e', 'r'] : List Char) = "Bearer".toList)]
  rw [deserBearerFields]
  rw [if_pos (by decide : (['r', 'e', 'a', 'l', 'm'] : List Char) = "realm".toList)]
  rw [jsonUnescape_clean R.toList (fun c hc => ⟨(hRc c hc).2.1, (hRc c hc).2.2⟩)]
  simp only []
  rw [deserBearerFields]
  rw [if_neg (by decide : ¬ (['s', 'e', 'r', 'v', 'i', 'c', 'e'] : List Char) = "realm".toList)]
  rw [if_pos (by decide : (['s', 'e', 'r', 'v', 'i', 'c', 'e'] : List Char) = "service".toList)]
  rw [jsonUnescape_clean S.toList (fun c hc => ⟨(hSc c hc).2.1, (hSc c hc).2.2⟩)]
  simp only []
  rw [deserBearerFields]
  rw [if_neg (by decide : ¬ (['s', 'c', 'o', 'p', 'e'] : List Char) = "realm".toList)]
  rw [if_neg (by decide : ¬ (['s', 'c', 'o', 'p', 'e'] : List Char) = "service".toList)]
  rw [if_pos (by decide : (['s', 'c', 'o', 'p', 'e'] : List Char) = "scope".toList)]
  rw [jsonUnescape_clean SC.toList (fun c hc => ⟨(hSCc c hc).2.1, (hSCc c hc).2.2⟩)]
  simp only []
  rw [deserBearerFields]
  rfl

theorem c6_witness :
    from_www_authentication_header
      ("Bearer realm=\"" ++ "r" ++ "\",service=\"" ++ "s" ++ "\",scope=\"" ++ "c" ++ "\"")
    = .ok (.Bearer ⟨"r", some "s", some "c"⟩) :=
  c6_bearer_header_parses "r" "s" "c" (by decide) (by decide) (by decide) (by decide)
    (by decide) (by decide)

/-- C7 counterexample: the header value `Bearer` has the scheme token
`Bearer` and contains no `realm="..."` pair, but parsing fails with the
regex-no-match error (the regex requires at least one key-value pair), not
with a missing-required-field error. -/
theorem c7_counterexample :
    from_www_authentication_header "Bearer" = .error .regexNoMatch
    ∧ ParseErr.regexNoMatch ≠ ParseErr.missingField "realm" := by decide

/-- C7 (amended): for every header consisting of the Bearer scheme token
followed by one or more well-formed `key="value"` attribute pairs with
pairwise distinct keys (lowercase non-empty keys, non-empty values free of
quotes, backslashes and control characters), none of which has key `realm`,
parsing fails with the missing-required-field error for `realm` and does not
produce a Bearer challenge with a defaulted realm.  A Bearer header with no
attribute pair at all instead fails earlier with a regex-no-match error (see
the counterexample). -/
theorem c7_missing_realm_errors (k v : String) (ps : List (String × String))
    (hk : k.toList ≠ []) (hkl : ∀ c ∈ k.toList, isLowerAz c = true)
    (hkr : k.toList ≠ "realm".toList)
    (hv : v.toList ≠ []) (hvc : ∀ c ∈ v.toList, c ≠ '"' ∧ c ≠ '\\' ∧ 32 ≤ c.toNat)
    (hpk : ∀ p ∈ ps, p.1.toList ≠ [] ∧ (∀ c ∈ p.1.toList, isLowerAz c = true)
        ∧ p.1.toList ≠ "realm".toList)
    (hpv : ∀ p ∈ ps, p.2.toList ≠ [] ∧ ∀ c ∈ p.2.toList, c ≠ '"' ∧ c ≠ '\\' ∧ 32 ≤ c.toNat)
    (hnd : (k.toList :: ps.map (fun p => p.1.toList)).Nodup) :
    from_www_authentication_header ("Bearer " ++ k ++ "=\"" ++ v ++ "\"" ++ renderPairsTail ps)
      = .error (.missingField "realm") := by
  have e1 : "Bearer ".toList = ['B', 'e', 'a', 'r', 'e', 'r', ' '] := rfl
  have e2 : "=\"".toList = ['=', '"'] := rfl
  have e4 : "\"".toList = ['"'] := rfl
  have hlist : ("Bearer " ++ k ++ "=\"" ++ v ++ "\"" ++ renderPairsTail ps).toList
      = 'B' :: 'e' :: 'a' :: 'r' :: 'e' :: 'r' :: ' '
        :: (k.toList ++ '=' :: '"' :: (v.toList ++ '"' ::
          pairsTail (ps.map (fun p => (p.1.toList, p.2.toList))))) := by
    simp only [toList_append, e1, e2, e4, renderPairsTail_toList, List.cons_append,
      List.nil_append, List.append_assoc]
  have hwf : wfPairs (ps.map (fun p => (p.1.toList, p.2.toList))) := by
    intro q hq
    rcases List.mem_map.mp hq with ⟨p, hp, rfl⟩
    obtain ⟨h1, h2, _⟩ := hpk p hp
    obtain ⟨h3, h4⟩ := hpv p hp
    exact ⟨h1, h2, h3, fun c hc => notQuote_of_ne (h4 c hc).1⟩
  have hscan := scanList_bearerHeader k.toList v.toList
      (ps.map (fun p => (p.1.toList, p.2.toList)))
      hk hkl hv (fun c hc => notQuote_of_ne ((hvc c hc).1)) hwf
  unfold from_www_authentication_header
  rw [hlist, hscan]
  simp only [List.map_cons, map_key_value]
  unfold deserContent
  rw [if_pos (by decide : (['B', 'e', 'a', 'r', 'e', 'r'] : List Char) = "Bearer".toList)]
  rw [deserBearerFields_no_realm _ none none ?hnr ?hcl ?hserv ?hscope ?hnodup]
  · rfl
  case hnr =>
    intro q hq
    rcases List.mem_cons.mp hq with rfl | hq2
    · exact hkr
    · rcases List.mem_map.mp hq2 with ⟨p, hp, rfl⟩
      exact (hpk p hp).2.2
  case hcl =>
    intro q hq
    rcases List.mem_cons.mp hq with rfl | hq2
    · exact ⟨v.toList, jsonUnescape_clean v.toList
        (fun c hc => ⟨(hvc c hc).2.1, (hvc c hc).2.2⟩)⟩
    · rcases List.mem_map.mp hq2 with ⟨p, hp, rfl⟩
      obtain ⟨_, h4⟩ := hpv p hp
      exact ⟨p.2.toList, jsonUnescape_clean p.2.toList
        (fun c hc => ⟨(h4 c hc).2.1, (h4 c hc).2.2⟩)⟩
  case hserv => exact fun w hw => Option.noConfusion hw
  case hscope => exact fun w hw => Option.noConfusion hw
  case hnodup =>
    simp only [List.map_cons, List.map_map]
    simpa [Function.comp] using hnd

theorem c7_witness :
    from_www_authentication_header
      ("Bearer " ++ "service" ++ "=\"" ++ "s" ++ "\"" ++ renderPairsTail [("scope", "c")])
      = .error (.missingField "realm") :=
  c7_missing_realm_errors "service" "s" [("scope", "c")] (by decide) (by decide) (by decide) (by decide)
    (by decide) (by decide) (by decide) (by decide)

/-- C8 counterexample: after adopting a Basic credential, a verification
probe answering 500 does not clear the credential and does not produce the
login-failed error; `is_auth`'s wrong-status error propagates through `?`
with the adopted credential still in the slot. -/
theorem c8_counterexample :
    authenticate ⟨"http://r", some ("u", "p"), none⟩
      ⟨fun _ => true, some ⟨401, some "Basic realm=\"Reg\""⟩, none, some 500⟩ []
      = some (.error (.wrongProbeStatus 500, some (.Basic ⟨"u", some "p"⟩)))
    ∧ AuthErr.wrongProbeStatus 500 ≠ AuthErr.loginFailed
    ∧ (some (Auth.Basic ⟨"u", some "p"⟩) : Option Auth) ≠ none := by decide

/-- C8 (amended): in every `authenticate` run that adopts a credential `a`
(a Basic credential built from the client's username and password when the
challenge parses as Basic, or the delivered Bearer token when the challenge
parses as Bearer, the token endpoint url parses, the token response has
status 200 with a decodable body carrying a non-empty, non-"unauthenticated"
token, and masking does not panic) and reaches the verification probe with
status `v`: a 200 yields success with `a` installed; a 401 clears the
adopted credential and fails with the login-failed error; any other status
makes `authenticate` fail with the probe's wrong-status error while the
adopted credential is still in the slot at the point of failure (it is not
cleared, and the error is not login-failed). -/
theorem c8_verification_outcomes (c : Client) (env : Env) (scopes : List String)
    (u p hv : String) (pr : ProbeResponse) (a : Auth) (v : Nat)
    (hcred : c.credentials = some (u, p))
    (hurl : env.urlParse (c.base_url ++ "/v2/") = true)
    (hprobe : env.probe = some pr)
    (hhdr : pr.www_authenticate = some hv)
    (hverify : env.verifyStatus = some v)
    (hadopt :
      (∃ bs, from_www_authentication_header hv = .ok (.Basic bs)
        ∧ a = .Basic ⟨u, some p⟩)
      ∨ (∃ bc tr b, from_www_authentication_header hv = .ok (.Bearer bc)
          ∧ env.urlParse (auth_ep bc scopes) = true
          ∧ env.tokenResp = some tr ∧ tr.status = 200 ∧ tr.body = some b
          ∧ b.token ≠ "unauthenticated" ∧ b.token ≠ ""
          ∧ (maskToken b.token.toList).isSome
          ∧ a = .Bearer b)) :
    authenticate c env scopes
      = (if v = 200 then some (.ok { c with auth := some a })
        else if v = 401 then some (.error (.loginFailed, none))
        else some (.error (.wrongProbeStatus v, some a))) := by
  rcases hadopt with ⟨bs, hparse, rfl⟩ | ⟨bc, tr, b, hparse, hurl2, htok, hst, hbody,
      hun, hemp, hmask, rfl⟩
  · simp only [authenticate, hcred, hurl, hprobe, hhdr, hparse, reduceIte, reduceCtorEq]
    exact finishAuth_verify _ env (.Basic ⟨u, some p⟩) v rfl hurl hverify
  · obtain ⟨m, hm⟩ := Option.isSome_iff_exists.mp hmask
    simp only [authenticate, hcred, hurl, hprobe, hhdr, hparse, hurl2, htok, hst, hbody,
      reduceIte, reduceCtorEq, ne_eq, not_true]
    rw [if_neg hun, if_neg hemp, hm]
    exact finishAuth_verify _ env (.Bearer b) v rfl hurl hverify

theorem c8_witness :
    authenticate ⟨"http://registry", some ("u", "p"), none⟩
      ⟨fun _ => true, some ⟨401, some "Basic realm=\"Registry\""⟩, none, some 500⟩ []
      = some (.error (.wrongProbeStatus 500, some (.Basic ⟨"u", some "p"⟩))) :=
  c8_verification_outcomes ⟨"http://registry", some ("u", "p"), none⟩
    ⟨fun _ => true, some ⟨401, some "Basic realm=\"Registry\""⟩, none, some 500⟩ []
    "u" "p" "Basic realm=\"Registry\"" ⟨401, some "Basic realm=\"Registry\""⟩
    (.Basic ⟨"u", some "p"⟩) 500 rfl rfl rfl rfl rfl
    (Or.inl ⟨⟨"Registry"⟩, by decide, rfl⟩)

/-- C9: for every verification probe response, `is_auth` returns `Ok(true)`
exactly when the status is 200, returns `Ok(false)` exactly when the status
is 401, and returns the wrong-status error for every other status. -/
theorem c9_is_auth_statuses (c : Client) (env : Env) (status : Nat)
    (hurl : env.urlParse (c.base_url ++ "/v2/") = true)
    (hst : env.verifyStatus = some status) :
    (is_auth c env = .ok true ↔ status = 200) ∧
    (is_auth c env = .ok false ↔ status = 401) ∧
    (status ≠ 200 → status ≠ 401 →
      is_auth c env = .error (.wrongProbeStatus status)) := by
  unfold is_auth
  rw [hurl, hst]
  simp only [reduceCtorEq, reduceIte]
  by_cases h200 : status = 200
  · subst h200
    simp
  · by_cases h401 : status = 401
    · subst h401
      simp
    · rw [if_neg h200, if_neg h401]
      simp [h200, h401]

theorem c9_witness :
    (is_auth ⟨"http://r", some ("u", "p"), none⟩ ⟨fun _ => true, none, none, some 500⟩
        = .ok true ↔ (500 : Nat) = 200) ∧
    (is_auth ⟨"http://r", some ("u", "p"), none⟩ ⟨fun _ => true, none, none, some 500⟩
        = .ok false ↔ (500 : Nat) = 401) ∧
    ((500 : Nat) ≠ 200 → (500 : Nat) ≠ 401 →
      is_auth ⟨"http://r", some ("u", "p"), none⟩ ⟨fun _ => true, none, none, some 500⟩
        = .error (.wrongProbeStatus 500)) :=
  c9_is_auth_statuses ⟨"http://r", some ("u", "p"), none⟩
    ⟨fun _ => true, none, none, some 500⟩ 500 rfl rfl

/-- C10: `authenticate` fails with the missing-header error whenever the
probe response carries no `WWW-Authenticate` header, regardless of the
probe's HTTP status (the status field of the probe response is universally
quantified and never inspected), so even a 200 probe response without that
header makes `authenticate` fail; the credential slot is `none` at the
failure. -/
theorem c10_missing_header_error (c : Client) (env : Env) (scopes : List String)
    (u p : String) (pr : ProbeResponse)
    (hcred : c.credentials = some (u, p))
    (hurl : env.urlParse (c.base_url ++ "/v2/") = true)
    (hprobe : env.probe = some pr)
    (hhdr : pr.www_authenticate = none) :
    authenticate c env scopes = some (.error (.missingHeader, none)) := by
  simp only [authenticate, hcred, hurl, hprobe, hhdr, reduceIte, reduceCtorEq]

theorem c10_witness :
    authenticate ⟨"http://r", some ("u", "p"), none⟩
      ⟨fun _ => true, some ⟨200, none⟩, none, some 200⟩ []
      = some (.error (.missingHeader, none)) :=
  c10_missing_header_error _ _ [] "u" "p" ⟨200, none⟩ rfl rfl rfl rfl
